import Mathlib

/-!
Verification of the YUI3 chart/scrollview/widget-buttons helpers.

Shallow embedding of:
  * `StackedData._updateMinAndMax`  (src/src/charts/js/StackedData.js)
  * `CategoryImpl._getKeyArray`, `_setDataByKey`, `getKeyValueAt`
    (axis-category-base source)
  * `WidgetButtons` constructor, `addButton`, `getButton`, `_getButtons`
    (widget-buttons source)
  * a spec-modelled scrollview (the scrollview-base implementation is not
    among the sources; only its unit tests are), covering `_snapBack`,
    `_mousewheel`, the disabled no-ops, `scrollTo`, `_onGestureMoveStart`
    and `_flick`.

JavaScript numbers are modelled as `Option ℚ`: `none` stands for the
non-numeric cases the code meets (`NaN`, `undefined` from reading past the
end of an array); `some q` is a finite numeric value.  Array reads past the
end yield `none`, matching `undefined` whose `isNaN` test is true.
-/

namespace StackedData

/-- A stacked series collection: insertion-ordered own properties of the
`keys` object, each mapping a series name to its data array. -/
abbrev Keys : Type := List (String × List (Option ℚ))

/-- JavaScript array indexing: `arr[i]` is the element when `i` is in
range, and `undefined` (here `none`) otherwise. -/
def arrAt (l : List (Option ℚ)) (i : ℕ) : Option ℚ :=
  (l.get? i).getD none

/-- The first loop of `_updateMinAndMax`: `len` is the maximum length over
all series arrays. -/
def maxLen (keys : Keys) : ℕ :=
  keys.foldl (fun acc kv => Nat.max acc kv.2.length) 0

/-- The inner loop of `_updateMinAndMax` at index `i`, threading the
`(pos, neg)` accumulators: a non-numeric entry is skipped (`continue`),
a value `>= 0` is added to `pos`, a negative value to `neg`. -/
def posNegStep (i : ℕ) (pn : ℚ × ℚ) (kv : String × List (Option ℚ)) : ℚ × ℚ :=
  match arrAt kv.2 i with
  | none => pn
  | some num => if 0 ≤ num then (pn.1 + num, pn.2) else (pn.1, pn.2 + num)

/-- The `(pos, neg)` pair computed by the inner loop for index `i`. -/
def posNeg (keys : Keys) (i : ℕ) : ℚ × ℚ :=
  keys.foldl (posNegStep i) (0, 0)

/-- One iteration of the outer loop of `_updateMinAndMax`: after the inner
loop, `max` is updated from `pos` when `pos > 0` (else from `neg`), and
`min` from `neg` when `neg < 0` (else from `pos`). -/
def outerStep (keys : Keys) (mm : ℚ × ℚ) (i : ℕ) : ℚ × ℚ :=
  let pn := posNeg keys i
  (if 0 < pn.1 then Max.max mm.1 pn.1 else Max.max mm.1 pn.2,
   if pn.2 < 0 then Min.min mm.2 pn.2 else Min.min mm.2 pn.1)

/-- The method `_updateMinAndMax`: returns the `(this._actualMaximum,
this._actualMinimum)` pair the method stores.  `max` and `min` start at 0
and the outer loop runs over indices `0 .. len - 1`. -/
def updateMinAndMax (keys : Keys) : ℚ × ℚ :=
  (List.range (maxLen keys)).foldl (outerStep keys) (0, 0)

/-- The numeric values found at shared index `i` across every series;
non-numeric entries (NaN, reads past the end of a shorter series) are
dropped. -/
def numsAt (keys : Keys) (i : ℕ) : List ℚ :=
  keys.filterMap (fun kv => arrAt kv.2 i)

/-- Spec-side reading: the positive running sum at index `i` combines the
values `>= 0` found at index `i` across every series. -/
def posSum (keys : Keys) (i : ℕ) : ℚ :=
  ((numsAt keys i).filter (fun v => 0 ≤ v)).sum

/-- Spec-side reading: the negative running sum at index `i` combines the
values `< 0` found at index `i` across every series. -/
def negSum (keys : Keys) (i : ℕ) : ℚ :=
  ((numsAt keys i).filter (fun v => v < 0)).sum

/-- Spec-side reading of the actual maximum: the largest per-index
positive sum over indices `0 .. len - 1` (0 when there is none). -/
def specMax (keys : Keys) : ℚ :=
  ((List.range (maxLen keys)).map (posSum keys)).foldl Max.max 0

/-- Spec-side reading of the actual minimum: the smallest per-index
negative sum over indices `0 .. len - 1` (0 when there is none). -/
def specMin (keys : Keys) : ℚ :=
  ((List.range (maxLen keys)).map (negSum keys)).foldl Min.min 0

end StackedData

namespace CategoryImpl

/-- A JavaScript value as the category axis meets it: a label string, a
number, `NaN`, `null`, `undefined`, or a boolean. -/
inductive JSVal where
  | str (s : String)
  | num (q : ℚ)
  | nanV
  | nullV
  | undefV
  | boolean (b : Bool)
deriving DecidableEq, Repr

/-- JavaScript truthiness: the empty string, 0, `NaN`, `null`, `undefined`
and `false` are falsy; everything else here is truthy. -/
def truthy : JSVal → Bool
  | .str s => !(s == "")
  | .num q => decide (q ≠ 0)
  | .nanV => false
  | .nullV => false
  | .undefV => false
  | .boolean b => b

/-- A data element of the category array: an object with named
properties. -/
abbrev JSObj := List (String × JSVal)

/-- JavaScript property read `obj[key]`: `undefined` when absent. -/
def getProp (obj : JSObj) (key : String) : JSVal :=
  (obj.lookup key).getD .undefV

/-- The loop shared by `_getKeyArray` and `_setDataByKey`, carrying the
running position `i`: `keyArr[i] = i` and `labels[i] = obj[key]`. -/
def buildIndex (i : ℕ) (data : List JSObj) (key : String) :
    List ℕ × List JSVal :=
  match data with
  | [] => ([], [])
  | obj :: rest =>
      let tail := buildIndex (i + 1) rest key
      (i :: tail.1, getProp obj key :: tail.2)

/-- The method `_getKeyArray(key, data)`: stores the first component in
`this._indices[key]` and returns the second (the labels). -/
def getKeyArray (key : String) (data : List JSObj) : List ℕ × List JSVal :=
  buildIndex 0 data key

/-- The method `_setDataByKey(key)`: runs the same loop over a copy of
`this._dataClone`; the first component goes to `this._indices[key]`, a
copy of the second to `this.get("keys")[key]`. -/
def setDataByKey (key : String) (dataClone : List JSObj) :
    List ℕ × List JSVal :=
  buildIndex 0 dataClone key

/-- The method `getKeyValueAt(key, index)`: starts from `NaN` and only replaces it
when `keys[key] && keys[key][index]` is truthy. -/
def getKeyValueAt (keys : List (String × List JSVal)) (key : String)
    (index : ℕ) : JSVal :=
  match keys.lookup key with
  | none => .nanV
  | some arr =>
      match arr.get? index with
      | none => .nanV
      | some v => if truthy v then v else .nanV

end CategoryImpl

namespace WidgetButtons

/-- A rendered button node.  `id` models DOM node identity, `dataName`
the value stored by `setData('name', ...)` (`none` = stored `undefined`),
`attrName` the DOM `name` property (the empty string on a fresh button
element), and `dataDefault` the value stored by `setData('default', ...)`. -/
structure Node where
  id : ℕ
  dataName : Option String
  attrName : String
  dataDefault : Bool
deriving DecidableEq, Repr

/-- A button configuration object.  `ctype` models the `type` property
(the fallback of `_getButtonName`), `sect` the `section` property, and
`isDefault` the `isDefault` property; `none` = property absent. -/
structure BtnConfig where
  name : Option String
  ctype : Option String
  sect : Option String
  isDefault : Option Bool
deriving DecidableEq, Repr

/-- The `button` argument of `addButton`: a `Y.Node` instance or a config
Object (a String name is normalized by `_mergeButtonConfig` to
`{name: config}`, i.e. a config whose only property is `name`). -/
inductive BtnArg where
  | node (n : Node)
  | config (c : BtnConfig)
deriving DecidableEq, Repr

/-- The constant `DEFAULT_BUTTONS_SECTION`, i.e. `Y.WidgetStdMod.FOOTER`. -/
def DEFAULT_BUTTONS_SECTION : String := "footer"

/-- The method `_getButtonName` on a node: `getData('name') || get('name')` — the
stored data name unless it is absent or the empty string, else the DOM
`name` property. -/
def nodeName (n : Node) : String :=
  match n.dataName with
  | some s => if s == "" then n.attrName else s
  | none => n.attrName

/-- The method `_getButtonName` on a config: `button.name || button.type`. -/
def configName (c : BtnConfig) : Option String :=
  match c.name with
  | some s => if s == "" then c.ctype else some s
  | none => c.ctype

/-- The method `_getButtonDefault` on a config: `!!config.isDefault` (the modelled
configs carry booleans, so the `isString` branch of the source never
applies). -/
def getButtonDefault (c : BtnConfig) : Bool :=
  c.isDefault.getD false

/-- The call `Y.mix(config, defConfig, false, null, 0, true)` restricted to the
modelled properties: properties missing from `config` are filled in from
the `BUTTONS` default with the same name. -/
def mixConfig (c d : BtnConfig) : BtnConfig :=
  { name := c.name <|> d.name
    ctype := c.ctype <|> d.ctype
    sect := c.sect <|> d.sect
    isDefault := c.isDefault <|> d.isDefault }

/-- The method `_mergeButtonConfig`: merges a config with the predefined button of
the same name on the `BUTTONS` property, defaults winning nothing. -/
def mergeButtonConfig (btns : List (String × BtnConfig)) (c : BtnConfig) :
    BtnConfig :=
  match (configName c).bind (fun n => btns.lookup n) with
  | some defConfig => mixConfig c defConfig
  | none => c

/-- The method `_createButton` on the merged config: the `Y.Button`-rendered node
(a fresh DOM node whose `name` property is empty) carrying
`setData('name', config.name)` and `setData('default',
this._getButtonDefault(config))`. -/
def createButton (uid : ℕ) (c : BtnConfig) : Node :=
  { id := uid
    dataName := c.name
    attrName := ""
    dataDefault := getButtonDefault c }

/-- The state the `WidgetButtons` extension keeps on a widget: the
`buttons` attribute (section name to ordered button nodes), the
`_buttonsMap` name-to-node lookup, the `_defaultButton` reference, a
fresh-DOM-id counter, and the widget's `BUTTONS` prototype property. -/
structure WBState where
  buttons : List (String × List Node)
  buttonsMap : List (String × Node)
  defaultButton : Option Node
  nextId : ℕ
  BUTTONS : List (String × BtnConfig)
deriving DecidableEq, Repr

/-- JavaScript object property assignment `m[k] = v`: replaces the value
in place when the key exists, else appends the key. -/
def assocSet {α : Type} : List (String × α) → String → α → List (String × α)
  | [], s, v => [(s, v)]
  | (k, w) :: rest, s, v =>
      if k == s then (k, v) :: rest else (k, w) :: assocSet rest s v

/-- The call `Array.prototype.splice(i, 0, b)`: a negative start counts from the
end (clamped at 0), a start past the end appends. -/
def spliceInsert (l : List Node) (i : ℤ) (b : Node) : List Node :=
  let start : ℕ :=
    if i < 0 then ((l.length : ℤ) + i).toNat else min i.toNat l.length
  l.insertIdx start b

/-- The `_setButtons` setter applied to a state object whose values are
already arrays of nodes (as in the `addButton` flow): each node keeps its
current section and order, and sections whose array is empty produce no
key in the rebuilt object. -/
def setButtonsNodes (buttons : List (String × List Node)) :
    List (String × List Node) :=
  buttons.filter (fun kv => !kv.2.isEmpty)

/-- The method `_mapButton`: writes the button under its name into `_buttonsMap`
and makes it `_defaultButton` when configured as the default. -/
def mapButton (st : WBState) (b : Node) : WBState :=
  { st with
      buttonsMap := assocSet st.buttonsMap (nodeName b) b
      defaultButton := if b.dataDefault then some b else st.defaultButton }

/-- The button node `addButton` ends up inserting: the node itself, or
the node `_createButton` builds from the merged config. -/
def effectiveButton (st : WBState) (arg : BtnArg) : Node :=
  match arg with
  | .node n => n
  | .config c => createButton st.nextId (mergeButtonConfig st.BUTTONS c)

/-- The section `addButton` inserts into: the `section` argument, else
(for a config button) `config.section`, else `DEFAULT_BUTTONS_SECTION`. -/
def effectiveSection (st : WBState) (arg : BtnArg) (sec : Option String) :
    String :=
  (match arg with
   | .node _ => sec
   | .config c => sec <|> (mergeButtonConfig st.BUTTONS c).sect).getD
    DEFAULT_BUTTONS_SECTION

/-- The section's button array before the insertion
(`buttons[section] || (buttons[section] = [])`). -/
def prevButtons (st : WBState) (arg : BtnArg) (sec : Option String) :
    List Node :=
  (st.buttons.lookup (effectiveSection st arg sec)).getD []

/-- The index `addButton` passes to `splice`:
`isNumber(index) || (index = sectionButtons.length)`. -/
def effectiveIndex (st : WBState) (arg : BtnArg) (sec : Option String)
    (idx : Option ℤ) : ℤ :=
  match idx with
  | some j => j
  | none => ((prevButtons st arg sec).length : ℤ)

/-- The method `addButton(button, section, index)`: builds the node if needed,
resolves the section and index, splices the node into the section's
array of the (copied) `buttons` state, stores the result through the
`_setButtons` setter, and — via the `buttonsChange` handler's `add`
special case — maps the new button. -/
def addButton (st : WBState) (arg : BtnArg) (sec : Option String)
    (idx : Option ℤ) : WBState :=
  let button := effectiveButton st arg
  let nextId :=
    match arg with
    | .node _ => st.nextId
    | .config _ => st.nextId + 1
  let s := effectiveSection st arg sec
  let sectionButtons := (st.buttons.lookup s).getD []
  let i := effectiveIndex st arg sec idx
  let spliced := spliceInsert sectionButtons i button
  let st2 := { st with
                 buttons := setButtonsNodes (assocSet st.buttons s spliced)
                 nextId := nextId }
  mapButton st2 button

/-- The method `getButton(index, section)` for a numeric index:
`buttons[section] && buttons[section][index]`, the section defaulting to
`DEFAULT_BUTTONS_SECTION`. -/
def getButton (st : WBState) (i : ℤ) (sec : Option String) : Option Node :=
  match st.buttons.lookup (sec.getD DEFAULT_BUTTONS_SECTION) with
  | none => none
  | some arr => if i < 0 then none else arr.get? i.toNat

/-- The method `getButton(name)` for a String name: `this._buttonsMap[name]`. -/
def getButtonByName (st : WBState) (name : String) : Option Node :=
  st.buttonsMap.lookup name

/-- The `WidgetButtons` constructor: raises the host-framework error via
`Y.error` when `this._stdModNode` is absent (the `WidgetStdMod`
extension was not mixed in), else succeeds. -/
def widgetButtonsInit (stdModNode : Option Node) : Except String Unit :=
  if stdModNode.isNone then
    Except.error "WidgetStdMod must be added to the Widget before WidgetButtons."
  else
    Except.ok ()

/-- A JavaScript heap cell as `_getButtons` sees it: an Array of button
nodes, or an outer buttons Object mapping section names to the heap
address of that section's Array.  Addresses are positions in the heap;
`Y.Object.each` / `concat()` allocate by appending. -/
inductive Cell where
  | arr (l : List Node)
  | obj (entries : List (String × ℕ))
deriving DecidableEq, Repr

/-- The heap: address `a` holds `h.get? a`. -/
abbrev Heap : Type := List Cell

/-- Reading a section Array from the heap (a non-Array read yields the
empty Array, which never happens on a well-formed state). -/
def readArr (h : Heap) (a : ℕ) : List Node :=
  match h.get? a with
  | some (.arr l) => l
  | _ => []

/-- The `YObject.each` loop of `_getButtons`: for every section, copies
the section Array with `sectionButtons.concat()` (a fresh Array cell
holding the same button nodes) and records the copy's address under the
section name. -/
def getButtonsCopy (h : Heap) (es : List (String × ℕ)) :
    Heap × List (String × ℕ) :=
  match es with
  | [] => (h, [])
  | (s, a) :: rest =>
      let h1 := h ++ [Cell.arr (readArr h a)]
      let r := getButtonsCopy h1 rest
      (r.1, (s, h.length) :: r.2)

/-- The getter `_getButtons`: builds `buttonsCopy`, a freshly-allocated outer
Object whose section entries point at freshly-allocated copies of the
section Arrays; returns the new heap and the copy's address. -/
def getButtons (h : Heap) (o : ℕ) : Heap × ℕ :=
  let entries :=
    match h.get? o with
    | some (.obj es) => es
    | _ => []
  let r := getButtonsCopy h entries
  (r.1 ++ [Cell.obj r.2], r.1.length)

end WidgetButtons

namespace ScrollView

/-- Modelled from the spec: the `scrollview-base` implementation is
missing from the sources (only its unit-test suite is present).  The
scrollview state per the spec: scroll offsets, scroll bounds, the
`disabled` attribute, the forced axis flags, and the ephemeral
per-interaction gesture record (start client coordinates), discarded at
gesture end. -/
structure SVState where
  scrollX : ℤ
  scrollY : ℤ
  maxScrollX : ℤ
  maxScrollY : ℤ
  disabled : Bool
  axisX : Bool
  axisY : Bool
  gesture : Option (ℤ × ℤ)
deriving DecidableEq, Repr

/-- Modelled from the spec: a pointer event's client coordinates, as
delivered to `_onGestureMoveStart`. -/
structure GestureEvent where
  clientX : ℤ
  clientY : ℤ
deriving DecidableEq, Repr

/-- Modelled from the spec: a disabled scrollview ignores scroll calls,
so a programmatic `set('scrollX')` is a silent no-op; otherwise it moves
the offset that distance. -/
def setScrollX (st : SVState) (v : ℤ) : SVState :=
  if st.disabled then st else { st with scrollX := v }

/-- Modelled from the spec: vertical counterpart of `setScrollX`. -/
def setScrollY (st : SVState) (v : ℤ) : SVState :=
  if st.disabled then st else { st with scrollY := v }

/-- Modelled from the spec: `scrollTo(x, y)` moves each given offset,
and is a silent no-op on a disabled scrollview. -/
def scrollTo (st : SVState) (x y : Option ℤ) : SVState :=
  if st.disabled then st
  else { st with scrollX := x.getD st.scrollX, scrollY := y.getD st.scrollY }

/-- Modelled from the spec: `_onGestureMoveStart` returns `false` and
does nothing on a disabled scrollview; otherwise it records the gesture
start client coordinates and starts the drag interaction. -/
def onGestureMoveStart (st : SVState) (e : GestureEvent) : Bool × SVState :=
  if st.disabled then (false, st)
  else (true, { st with gesture := some (e.clientX, e.clientY) })

/-- Modelled from the spec: `_flick` returns `false` and does nothing on
a disabled scrollview; otherwise it starts the decaying-velocity
animation loop (which only later moves the offsets). -/
def flick (st : SVState) : Bool × SVState :=
  if st.disabled then (false, st) else (true, st)

/-- Modelled from the spec: `_snapBack` is the animated correction
returning an over-scrolled view to its bounds `[0, maxScroll]` on each
scrolled axis. -/
def snapBack (st : SVState) : SVState :=
  { st with
      scrollX :=
        if st.axisX then min (max st.scrollX 0) st.maxScrollX
        else st.scrollX
      scrollY :=
        if st.axisY then min (max st.scrollY 0) st.maxScrollY
        else st.scrollY }

/-- Modelled from the spec: one `_mousewheel` event on a vertical
scrollview moves `scrollY` by a fixed step of 10 against the wheel
delta, clamped to the scroll bounds; a disabled or non-vertical
scrollview is left unchanged. -/
def mousewheel (st : SVState) (wheelDelta : ℤ) : SVState :=
  if st.disabled then st
  else if st.axisY then
    { st with
        scrollY := min (max (st.scrollY - wheelDelta * 10) 0) st.maxScrollY }
  else st

end ScrollView

namespace StackedData

lemma posSum_cons (kv : String × List (Option ℚ)) (rest : Keys) (i : ℕ) :
    posSum (kv :: rest) i =
      (match arrAt kv.2 i with
       | none => 0
       | some num => if 0 ≤ num then num else 0) + posSum rest i := by
  simp only [posSum, numsAt]
  cases h : arrAt kv.2 i with
  | none => simp [List.filterMap_cons, h]
  | some num =>
      by_cases hnum : 0 ≤ num <;>
        simp [List.filterMap_cons, h, hnum, List.filter_cons]

lemma negSum_cons (kv : String × List (Option ℚ)) (rest : Keys) (i : ℕ) :
    negSum (kv :: rest) i =
      (match arrAt kv.2 i with
       | none => 0
       | some num => if 0 ≤ num then 0 else num) + negSum rest i := by
  simp only [negSum, numsAt]
  cases h : arrAt kv.2 i with
  | none => simp [List.filterMap_cons, h]
  | some num =>
      simp only [List.filterMap_cons, h]
      by_cases hnum : 0 ≤ num
      · rw [List.filter_cons_of_neg (by simp [not_lt.mpr hnum])]
        simp [hnum]
      · rw [List.filter_cons_of_pos (by simp [not_le.mp hnum])]
        simp [hnum]

/-- The inner loop computes exactly the pair of positive and negative
running sums. -/
lemma foldl_posNegStep (keys : Keys) (i : ℕ) (pn : ℚ × ℚ) :
    keys.foldl (posNegStep i) pn =
      (pn.1 + posSum keys i, pn.2 + negSum keys i) := by
  induction keys generalizing pn with
  | nil => simp [posSum, negSum, numsAt]
  | cons kv rest ih =>
      show rest.foldl (posNegStep i) (posNegStep i pn kv) = _
      rw [ih]
      rw [posSum_cons, negSum_cons]
      cases h : arrAt kv.2 i with
      | none => simp [posNegStep, h]
      | some num =>
          by_cases hnum : 0 ≤ num
          · simp only [posNegStep, h, if_pos hnum, Prod.ext_iff]
            constructor <;> ring
          · simp only [posNegStep, h, if_neg hnum, Prod.ext_iff]
            constructor <;> ring

lemma posNeg_eq (keys : Keys) (i : ℕ) :
    posNeg keys i = (posSum keys i, negSum keys i) := by
  simpa using foldl_posNegStep keys i (0, 0)

lemma sum_nonpos_of_mem (l : List ℚ) (h : ∀ v ∈ l, v ≤ 0) : l.sum ≤ 0 := by
  induction l with
  | nil => simp
  | cons x xs ih =>
      have hx := h x (by simp)
      have hxs := ih (fun v hv => h v (by simp [hv]))
      simp only [List.sum_cons]
      linarith

lemma posSum_nonneg (keys : Keys) (i : ℕ) : 0 ≤ posSum keys i := by
  refine List.sum_nonneg ?_
  intro v hv
  exact of_decide_eq_true (List.mem_filter.mp hv).2

lemma negSum_nonpos (keys : Keys) (i : ℕ) : negSum keys i ≤ 0 := by
  refine sum_nonpos_of_mem _ ?_
  intro v hv
  exact le_of_lt (of_decide_eq_true (List.mem_filter.mp hv).2)

/-- The outer fold collapses to the spec-side folds: since `max` stays
nonnegative and `min` nonpositive, the `pos > 0` and `neg < 0` branch
conditions never let the negative sum raise `max` nor the positive sum
lower `min`. -/
lemma outer_fold_eq (keys : Keys) (idxs : List ℕ) (a b : ℚ)
    (ha : 0 ≤ a) (hb : b ≤ 0) :
    idxs.foldl (outerStep keys) (a, b) =
      ((idxs.map (posSum keys)).foldl Max.max a,
       (idxs.map (negSum keys)).foldl Min.min b) := by
  induction idxs generalizing a b with
  | nil => simp
  | cons i rest ih =>
      have hp := posSum_nonneg keys i
      have hn := negSum_nonpos keys i
      have hfst : (outerStep keys (a, b) i).1 = Max.max a (posSum keys i) := by
        simp only [outerStep, posNeg_eq]
        by_cases hpos : 0 < posSum keys i
        · simp [hpos]
        · have hp0 : posSum keys i = 0 := le_antisymm (not_lt.mp hpos) hp
          rw [hp0, if_neg (lt_irrefl 0), max_eq_left (le_trans hn ha),
            max_eq_left ha]
      have hsnd : (outerStep keys (a, b) i).2 = Min.min b (negSum keys i) := by
        simp only [outerStep, posNeg_eq]
        by_cases hneg : negSum keys i < 0
        · simp [hneg]
        · have hn0 : negSum keys i = 0 := le_antisymm hn (not_lt.mp hneg)
          rw [hn0, if_neg (lt_irrefl 0), min_eq_left (le_trans hb hp),
            min_eq_left hb]
      have hstep : outerStep keys (a, b) i =
          (Max.max a (posSum keys i), Min.min b (negSum keys i)) :=
        Prod.ext_iff.mpr ⟨hfst, hsnd⟩
      show List.foldl _ (outerStep keys (a, b) i) rest = _
      rw [hstep,
        ih _ _ (le_trans ha (le_max_left _ _)) (le_trans (min_le_left _ _) hb)]
      simp

/-- Central equation: `_updateMinAndMax` computes exactly the spec-side
fold of per-index positive and negative sums. -/
lemma updateMinAndMax_eq (keys : Keys) :
    updateMinAndMax keys = (specMax keys, specMin keys) := by
  unfold updateMinAndMax specMax specMin
  exact outer_fold_eq keys (List.range (maxLen keys)) 0 0 le_rfl le_rfl

/-- C1: for every keys mapping from series name to a numeric array,
`_updateMinAndMax` combines the values at each shared index into a
positive running sum (values `>= 0`) and a negative running sum
(values `< 0`), scanning every series up to the length `maxLen` of the
longest one, and stores as actual maximum the largest per-index positive
sum and as actual minimum the smallest per-index negative sum. -/
theorem stackedData_updateMinAndMax_correct (keys : Keys) :
    (∀ i, posNeg keys i = (posSum keys i, negSum keys i)) ∧
    (updateMinAndMax keys).1 = specMax keys ∧
    (updateMinAndMax keys).2 = specMin keys := by
  refine ⟨fun i => posNeg_eq keys i, ?_, ?_⟩ <;>
    rw [updateMinAndMax_eq]

lemma le_foldl_max (l : List ℚ) (a : ℚ) : a ≤ l.foldl Max.max a := by
  induction l generalizing a with
  | nil => simp
  | cons x xs ih => exact le_trans (le_max_left a x) (ih _)

lemma foldl_min_le (l : List ℚ) (a : ℚ) : l.foldl Min.min a ≤ a := by
  induction l generalizing a with
  | nil => simp
  | cons x xs ih => exact le_trans (ih _) (min_le_left a x)

lemma foldl_max_zero (l : List ℚ) (h : ∀ x ∈ l, x = 0) :
    l.foldl Max.max 0 = 0 := by
  induction l with
  | nil => simp
  | cons x xs ih =>
      have hx := h x (by simp)
      simp only [List.foldl_cons, hx, max_self]
      exact ih (fun y hy => h y (by simp [hy]))

lemma foldl_min_zero (l : List ℚ) (h : ∀ x ∈ l, x = 0) :
    l.foldl Min.min 0 = 0 := by
  induction l with
  | nil => simp
  | cons x xs ih =>
      have hx := h x (by simp)
      simp only [List.foldl_cons, hx, min_self]
      exact ih (fun y hy => h y (by simp [hy]))

lemma mem_numsAt (keys : Keys) (i : ℕ) (v : ℚ) (hv : v ∈ numsAt keys i) :
    ∃ kv ∈ keys, some v ∈ kv.2 := by
  obtain ⟨kv, hkv, harr⟩ := List.mem_filterMap.mp hv
  refine ⟨kv, hkv, ?_⟩
  simp only [arrAt] at harr
  cases hg : kv.2.get? i with
  | none => rw [hg] at harr; simp at harr
  | some o =>
      rw [hg] at harr
      simp at harr
      subst harr
      exact List.get?_mem hg

lemma negSum_eq_zero_of_pos (keys : Keys) (i : ℕ)
    (h : ∀ kv ∈ keys, ∀ v : ℚ, some v ∈ kv.2 → 0 < v) :
    negSum keys i = 0 := by
  have : (numsAt keys i).filter (fun v => v < 0) = [] := by
    rw [List.filter_eq_nil_iff]
    intro v hv
    obtain ⟨kv, hkv, hmem⟩ := mem_numsAt keys i v hv
    simp [not_lt.mpr (le_of_lt (h kv hkv v hmem))]
  rw [negSum, this, List.sum_nil]

lemma posSum_eq_zero_of_neg (keys : Keys) (i : ℕ)
    (h : ∀ kv ∈ keys, ∀ v : ℚ, some v ∈ kv.2 → v < 0) :
    posSum keys i = 0 := by
  have : (numsAt keys i).filter (fun v => 0 ≤ v) = [] := by
    rw [List.filter_eq_nil_iff]
    intro v hv
    obtain ⟨kv, hkv, hmem⟩ := mem_numsAt keys i v hv
    simp [not_le.mpr (h kv hkv v hmem)]
  rw [posSum, this, List.sum_nil]

/-- C9: after every run of `_updateMinAndMax`, the actual bounds include
zero (`_actualMaximum >= 0`, `_actualMinimum <= 0`); when every numeric
data value is strictly positive the minimum stays 0, when every one is
strictly negative the maximum stays 0; and the per-index stacks combine
exactly the numeric entries, so non-numeric entries (NaN, missing values
of shorter series) contribute to neither stack. -/
theorem stackedData_bounds_contain_zero (keys : Keys) :
    0 ≤ (updateMinAndMax keys).1 ∧ (updateMinAndMax keys).2 ≤ 0 ∧
    ((∀ kv ∈ keys, ∀ v : ℚ, some v ∈ kv.2 → 0 < v) →
      (updateMinAndMax keys).2 = 0) ∧
    ((∀ kv ∈ keys, ∀ v : ℚ, some v ∈ kv.2 → v < 0) →
      (updateMinAndMax keys).1 = 0) ∧
    (∀ i, posNeg keys i = (posSum keys i, negSum keys i)) := by
  rw [updateMinAndMax_eq]
  refine ⟨le_foldl_max _ 0, foldl_min_le _ 0, ?_, ?_, posNeg_eq keys⟩
  · intro h
    refine foldl_min_zero _ ?_
    intro x hx
    obtain ⟨i, _, hi⟩ := List.mem_map.mp hx
    exact hi ▸ negSum_eq_zero_of_pos keys i h
  · intro h
    refine foldl_max_zero _ ?_
    intro x hx
    obtain ⟨i, _, hi⟩ := List.mem_map.mp hx
    exact hi ▸ posSum_eq_zero_of_neg keys i h

/-- Witness for C9 at a concrete input: two series of strictly positive
values; the actual maximum is nonnegative and the minimum stays 0. -/
theorem stackedData_bounds_contain_zero_witness :
    0 ≤ (updateMinAndMax [("a", [some 1, some 2]), ("b", [some 3])]).1 ∧
    (updateMinAndMax [("a", [some 1, some 2]), ("b", [some 3])]).2 = 0 := by
  have h := stackedData_bounds_contain_zero
    [("a", [some 1, some 2]), ("b", [some 3])]
  refine ⟨h.1, h.2.2.1 ?_⟩
  intro kv hkv v hv
  simp only [List.mem_cons, List.not_mem_nil, or_false] at hkv
  rcases hkv with rfl | rfl
  · simp only [List.mem_cons, List.not_mem_nil, or_false,
      Option.some.injEq] at hv
    rcases hv with rfl | rfl <;> norm_num
  · simp only [List.mem_cons, List.not_mem_nil, or_false,
      Option.some.injEq] at hv
    rw [hv]
    norm_num

end StackedData

namespace CategoryImpl

lemma buildIndex_eq (i : ℕ) (data : List JSObj) (key : String) :
    buildIndex i data key =
      (List.range' i data.length, data.map (fun obj => getProp obj key)) := by
  induction data generalizing i with
  | nil => simp [buildIndex]
  | cons obj rest ih =>
      simp only [buildIndex, ih, List.length_cons, List.map_cons]
      rw [List.range'_succ]

/-- C2: rebuilding the index for a key over a category data array of
length `n` stores in `_indices[key]` the ordered positional indices
`0, 1, ..., n - 1`, and stores (`_setDataByKey`) or returns
(`_getKeyArray`) the ordered sequence of the `n` labels obtained by
projecting each data element onto that key. -/
theorem categoryImpl_index_rebuild (key : String) (data : List JSObj) :
    (getKeyArray key data).1 = List.range data.length ∧
    (getKeyArray key data).2 = data.map (fun obj => getProp obj key) ∧
    (setDataByKey key data).1 = List.range data.length ∧
    (setDataByKey key data).2 = data.map (fun obj => getProp obj key) := by
  have h := buildIndex_eq 0 data key
  rw [List.range_eq_range']
  exact ⟨by rw [getKeyArray, h], by rw [getKeyArray, h],
    by rw [setDataByKey, h], by rw [setDataByKey, h]⟩

/-- C8: `getKeyValueAt(key, index)` returns `NaN` when the key is absent
or the index is out of range, but also whenever the stored label at that
index is falsy (the empty string, 0, `null`, ...); it returns the stored
label exactly when that label is truthy. -/
theorem categoryImpl_getKeyValueAt_falsy
    (keys : List (String × List JSVal)) (key : String) (index : ℕ) :
    (keys.lookup key = none → getKeyValueAt keys key index = .nanV) ∧
    (∀ arr, keys.lookup key = some arr → arr.get? index = none →
      getKeyValueAt keys key index = .nanV) ∧
    (∀ arr v, keys.lookup key = some arr → arr.get? index = some v →
      getKeyValueAt keys key index = if truthy v then v else .nanV) := by
  refine ⟨fun h => ?_, fun arr h1 h2 => ?_, fun arr v h1 h2 => ?_⟩
  · simp only [getKeyValueAt, h]
  · simp only [getKeyValueAt, h1]
    rw [h2]
  · simp only [getKeyValueAt, h1]
    rw [h2]

/-- Witness for C8 at a concrete input: under key "k" the stored labels
are the empty string, the number 0, `null`, and the truthy label "a";
the first three lookups return `NaN`, the fourth returns the label, and
a missing key or out-of-range index also returns `NaN`. -/
theorem categoryImpl_getKeyValueAt_falsy_witness :
    getKeyValueAt [("k", [.str "", .num 0, .nullV, .str "a"])] "k" 0
      = JSVal.nanV ∧
    getKeyValueAt [("k", [.str "", .num 0, .nullV, .str "a"])] "k" 1
      = JSVal.nanV ∧
    getKeyValueAt [("k", [.str "", .num 0, .nullV, .str "a"])] "k" 2
      = JSVal.nanV ∧
    getKeyValueAt [("k", [.str "", .num 0, .nullV, .str "a"])] "k" 3
      = JSVal.str "a" ∧
    getKeyValueAt [("k", [.str "", .num 0, .nullV, .str "a"])] "m" 0
      = JSVal.nanV ∧
    getKeyValueAt [("k", [.str "", .num 0, .nullV, .str "a"])] "k" 9
      = JSVal.nanV := by
  refine ⟨?_, ?_, ?_, ?_, ?_, ?_⟩
  · have h := (categoryImpl_getKeyValueAt_falsy
      [("k", [.str "", .num 0, .nullV, .str "a"])] "k" 0).2.2
      [.str "", .num 0, .nullV, .str "a"] (.str "") rfl rfl
    simpa using h
  · have h := (categoryImpl_getKeyValueAt_falsy
      [("k", [.str "", .num 0, .nullV, .str "a"])] "k" 1).2.2
      [.str "", .num 0, .nullV, .str "a"] (.num 0) rfl rfl
    simpa using h
  · have h := (categoryImpl_getKeyValueAt_falsy
      [("k", [.str "", .num 0, .nullV, .str "a"])] "k" 2).2.2
      [.str "", .num 0, .nullV, .str "a"] .nullV rfl rfl
    simpa using h
  · have h := (categoryImpl_getKeyValueAt_falsy
      [("k", [.str "", .num 0, .nullV, .str "a"])] "k" 3).2.2
      [.str "", .num 0, .nullV, .str "a"] (.str "a") rfl rfl
    simpa [truthy] using h
  · exact (categoryImpl_getKeyValueAt_falsy
      [("k", [.str "", .num 0, .nullV, .str "a"])] "m" 0).1 rfl
  · exact (categoryImpl_getKeyValueAt_falsy
      [("k", [.str "", .num 0, .nullV, .str "a"])] "k" 9).2.1
      [.str "", .num 0, .nullV, .str "a"] rfl rfl

end CategoryImpl

namespace WidgetButtons

lemma lookup_assocSet_self {α : Type} (m : List (String × α)) (k : String)
    (v : α) : (assocSet m k v).lookup k = some v := by
  induction m with
  | nil => simp [assocSet]
  | cons kv rest ih =>
      obtain ⟨k', w⟩ := kv
      by_cases h : k' = k
      · subst h
        simp [assocSet, List.lookup]
      · have hbeq : (k' == k) = false := beq_eq_false_iff_ne.mpr h
        have hbeq' : (k == k') = false :=
          beq_eq_false_iff_ne.mpr (Ne.symm h)
        simp [assocSet, hbeq, hbeq', List.lookup, ih]

lemma lookup_setButtonsNodes_assocSet (l : List (String × List Node))
    (s : String) (arr : List Node) (h : arr ≠ []) :
    (setButtonsNodes (assocSet l s arr)).lookup s = some arr := by
  have harr : arr.isEmpty = false := by
    cases arr with
    | nil => exact absurd rfl h
    | cons a t => rfl
  induction l with
  | nil =>
      simp [assocSet, setButtonsNodes, List.filter_cons, harr, List.lookup]
  | cons kv rest ih =>
      obtain ⟨k, w⟩ := kv
      by_cases hk : k = s
      · subst hk
        simp [assocSet, setButtonsNodes, List.filter_cons, harr, List.lookup]
      · have hbeq : (k == s) = false := beq_eq_false_iff_ne.mpr hk
        have hbeq' : (s == k) = false :=
          beq_eq_false_iff_ne.mpr (Ne.symm hk)
        simp only [assocSet, hbeq, Bool.false_eq_true, if_false,
          setButtonsNodes]
        by_cases hw : w.isEmpty = true
        · rw [List.filter_cons_of_neg (by simp [hw])]
          exact ih
        · rw [List.filter_cons_of_pos (by simpa using hw)]
          simp only [List.lookup, hbeq']
          exact ih

lemma get?_insertIdx_self (l : List Node) (n : ℕ) (b : Node)
    (h : n ≤ l.length) : (l.insertIdx n b).get? n = some b := by
  induction l generalizing n with
  | nil =>
      rw [Nat.le_zero.mp h]
      simp [List.insertIdx]
  | cons x xs ih =>
      cases n with
      | zero => simp [List.insertIdx]
      | succ m =>
          simp only [List.insertIdx_succ_cons, List.get?_cons_succ]
          exact ih m (Nat.succ_le_succ_iff.mp h)

lemma insertIdx_ne_nil (l : List Node) (n : ℕ) (b : Node)
    (h : n ≤ l.length) : l.insertIdx n b ≠ [] := by
  intro hnil
  have := get?_insertIdx_self l n b h
  rw [hnil] at this
  simp at this

/-- C6: constructing `WidgetButtons` on a widget whose `_stdModNode` is
absent (no `WidgetStdMod` mixed in) raises the host-framework error, and
raises none when it is present. -/
theorem widgetButtons_requires_stdmod :
    widgetButtonsInit none =
      Except.error
        "WidgetStdMod must be added to the Widget before WidgetButtons." ∧
    ∀ n : Node, widgetButtonsInit (some n) = Except.ok () :=
  ⟨rfl, fun _ => rfl⟩

/-- Witness for C6 at a concrete widget: with a standard-module node
present the constructor raises no error, without one it raises the
host-framework error. -/
theorem widgetButtons_requires_stdmod_witness :
    widgetButtonsInit (some ⟨0, none, "", false⟩) = Except.ok () ∧
    widgetButtonsInit none =
      Except.error
        "WidgetStdMod must be added to the Widget before WidgetButtons." :=
  ⟨widgetButtons_requires_stdmod.2 ⟨0, none, "", false⟩,
   widgetButtons_requires_stdmod.1⟩

/-- C7 fails as stated: `addButton` with numeric index 5 into an empty
footer section clamps the splice to the end, so the button lands at
index 0 and `getButton(5, "footer")` does not return it. -/
theorem widgetButtons_addButton_index_counterexample :
    getButton
      (addButton ⟨[], [], none, 0, []⟩
        (BtnArg.node ⟨0, some "ok", "", false⟩) (some "footer") (some 5))
      5 (some "footer") = none ∧
    (addButton ⟨[], [], none, 0, []⟩
        (BtnArg.node ⟨0, some "ok", "", false⟩) (some "footer")
        (some 5)).buttons.lookup "footer"
      = some [⟨0, some "ok", "", false⟩] :=
  ⟨rfl, rfl⟩

/-- C7 (amended): whenever the numeric index, if given, lies between 0
and the section's current length (otherwise `splice` clamps it), the
button is inserted into the effective section's ordered sequence at the
effective index — the end of the sequence when no numeric index is
given, and section "footer" when no section is given or configured — so
that `getButton(index, section)` returns that button node and
`getButton(name)` returns it via the name-to-node lookup. -/
theorem widgetButtons_addButton_getButton
    (st : WBState) (arg : BtnArg) (sec : Option String) (idx : Option ℤ)
    (h0 : 0 ≤ effectiveIndex st arg sec idx)
    (h1 : effectiveIndex st arg sec idx ≤
      ((prevButtons st arg sec).length : ℤ)) :
    (addButton st arg sec idx).buttons.lookup (effectiveSection st arg sec)
      = some ((prevButtons st arg sec).insertIdx
          (effectiveIndex st arg sec idx).toNat (effectiveButton st arg)) ∧
    getButton (addButton st arg sec idx) (effectiveIndex st arg sec idx)
        (some (effectiveSection st arg sec))
      = some (effectiveButton st arg) ∧
    (effectiveSection st arg sec = DEFAULT_BUTTONS_SECTION →
      getButton (addButton st arg sec idx) (effectiveIndex st arg sec idx)
          none
        = some (effectiveButton st arg)) ∧
    getButtonByName (addButton st arg sec idx)
        (nodeName (effectiveButton st arg))
      = some (effectiveButton st arg) := by
  set b := effectiveButton st arg with hb
  set s := effectiveSection st arg sec with hs
  set i := effectiveIndex st arg sec idx with hi
  have htoNat : i.toNat ≤ (prevButtons st arg sec).length :=
    Int.toNat_le.mpr h1
  have hsplice : spliceInsert (prevButtons st arg sec) i b =
      (prevButtons st arg sec).insertIdx i.toNat b := by
    simp only [spliceInsert, if_neg (not_lt.mpr h0)]
    rw [min_eq_left htoNat]
  have hbuttons : (addButton st arg sec idx).buttons =
      setButtonsNodes (assocSet st.buttons s
        ((prevButtons st arg sec).insertIdx i.toNat b)) := by
    simp only [addButton, mapButton, ← hb, ← hs, ← hi]
    rw [← hsplice]
    rfl
  have hne : (prevButtons st arg sec).insertIdx i.toNat b ≠ [] :=
    insertIdx_ne_nil _ _ _ htoNat
  have hlookup : (addButton st arg sec idx).buttons.lookup s =
      some ((prevButtons st arg sec).insertIdx i.toNat b) := by
    rw [hbuttons]
    exact lookup_setButtonsNodes_assocSet _ _ _ hne
  have hget : getButton (addButton st arg sec idx) i (some s) = some b := by
    simp only [getButton, Option.getD_some, hlookup, if_neg (not_lt.mpr h0)]
    exact get?_insertIdx_self _ _ _ htoNat
  refine ⟨hlookup, hget, ?_, ?_⟩
  · intro hfooter
    simpa only [getButton, Option.getD_none, ← hfooter] using hget
  · have hmap : (addButton st arg sec idx).buttonsMap =
        assocSet st.buttonsMap (nodeName b) b := by
      simp only [addButton, mapButton, ← hb, ← hs, ← hi]
    simp only [getButtonByName, hmap]
    exact lookup_assocSet_self _ _ _

/-- Witness for the amended C7 at a concrete input: a node button added
at index 0 of a footer that already holds one button is retrievable both
by index and by name. -/
theorem widgetButtons_addButton_getButton_witness :
    getButton
      (addButton
        ⟨[("footer", [⟨1, some "a", "", false⟩])],
         [("a", ⟨1, some "a", "", false⟩)], none, 2, []⟩
        (BtnArg.node ⟨2, some "b", "", false⟩) (some "footer") (some 0))
      0 (some "footer") = some ⟨2, some "b", "", false⟩ ∧
    getButtonByName
      (addButton
        ⟨[("footer", [⟨1, some "a", "", false⟩])],
         [("a", ⟨1, some "a", "", false⟩)], none, 2, []⟩
        (BtnArg.node ⟨2, some "b", "", false⟩) (some "footer") (some 0))
      "b" = some ⟨2, some "b", "", false⟩ := by
  have h := widgetButtons_addButton_getButton
    ⟨[("footer", [⟨1, some "a", "", false⟩])],
     [("a", ⟨1, some "a", "", false⟩)], none, 2, []⟩
    (BtnArg.node ⟨2, some "b", "", false⟩) (some "footer") (some 0)
    (by decide) (by decide)
  exact ⟨h.2.1, h.2.2.2⟩

lemma getButtonsCopy_spec (es : List (String × ℕ)) (h : Heap)
    (hwf : ∀ e ∈ es, e.2 < h.length) :
    h.length ≤ (getButtonsCopy h es).1.length ∧
    (∀ a, a < h.length → (getButtonsCopy h es).1.get? a = h.get? a) ∧
    (getButtonsCopy h es).2.length = es.length ∧
    (∀ j e, es.get? j = some e →
      ∃ a', (getButtonsCopy h es).2.get? j = some (e.1, a') ∧
        h.length ≤ a' ∧ a' < (getButtonsCopy h es).1.length ∧
        (getButtonsCopy h es).1.get? a' = some (Cell.arr (readArr h e.2))) := by
  induction es generalizing h with
  | nil =>
      exact ⟨le_rfl, fun a _ => rfl, rfl, fun j e hj => by simp at hj⟩
  | cons hd rest ih =>
      obtain ⟨s, a⟩ := hd
      have hlen1 : (h ++ [Cell.arr (readArr h a)]).length = h.length + 1 := by
        simp
      have hwf1 : ∀ e ∈ rest, e.2 < (h ++ [Cell.arr (readArr h a)]).length := by
        intro e he
        rw [hlen1]
        exact lt_of_lt_of_le (hwf e (List.mem_cons_of_mem _ he))
          (Nat.le_succ _)
      have spec := ih (h ++ [Cell.arr (readArr h a)]) hwf1
      have hle : h.length ≤ (h ++ [Cell.arr (readArr h a)]).length := by
        rw [hlen1]; exact Nat.le_succ _
      have hpres : ∀ b, b < h.length →
          (getButtonsCopy (h ++ [Cell.arr (readArr h a)]) rest).1.get? b
            = h.get? b := by
        intro b hb
        rw [spec.2.1 b (lt_of_lt_of_le hb hle)]
        exact List.get?_append hb
      refine ⟨le_trans hle spec.1, ?_, ?_, ?_⟩
      · intro b hb
        show (getButtonsCopy (h ++ [Cell.arr (readArr h a)]) rest).1.get? b
          = h.get? b
        exact hpres b hb
      · show ((s, h.length) ::
            (getButtonsCopy (h ++ [Cell.arr (readArr h a)]) rest).2).length
          = rest.length + 1
        rw [List.length_cons, spec.2.2.1]
      · intro j e hj
        cases j with
        | zero =>
            simp only [List.get?_cons_zero, Option.some.injEq] at hj
            subst hj
            refine ⟨h.length, by simp [getButtonsCopy], le_rfl,
              lt_of_lt_of_le (by rw [hlen1]; exact Nat.lt_succ_self _)
                spec.1, ?_⟩
            show (getButtonsCopy (h ++ [Cell.arr (readArr h a)]) rest).1.get?
              h.length = some (Cell.arr (readArr h a))
            rw [spec.2.1 h.length (by rw [hlen1]; exact Nat.lt_succ_self _)]
            exact List.get?_concat_length h _
        | succ j' =>
            simp only [List.get?_cons_succ] at hj
            obtain ⟨a', ha1, ha2, ha3, ha4⟩ := spec.2.2.2 j' e hj
            have hmem : e ∈ rest := by
              have := List.get?_mem hj
              exact this
            have hread : readArr (h ++ [Cell.arr (readArr h a)]) e.2
                = readArr h e.2 := by
              unfold readArr
              rw [List.get?_append (hwf e (List.mem_cons_of_mem _ hmem))]
            refine ⟨a', by simpa [getButtonsCopy] using ha1, le_trans hle ha2, ha3, ?_⟩
            rw [← hread]
            exact ha4

/-- C10: `get('buttons')` (the `_getButtons` getter) returns a fresh
copy of the buttons state — a freshly-allocated outer object whose
sections are freshly-allocated arrays holding the same button nodes —
so every address of the copy lies outside the original heap, the
original heap is untouched, and any write to an address of the copy
leaves every original address unchanged. -/
theorem widgetButtons_getButtons_fresh_copy (h : Heap) (o : ℕ)
    (es : List (String × ℕ)) (ho : h.get? o = some (Cell.obj es))
    (hwf : ∀ e ∈ es, e.2 < h.length) :
    h.length ≤ (getButtons h o).2 ∧
    (∀ b, b < h.length → (getButtons h o).1.get? b = h.get? b) ∧
    ((getButtons h o).1.get? (getButtons h o).2
        = some (Cell.obj (getButtonsCopy h es).2) ∧
      (getButtonsCopy h es).2.length = es.length ∧
      (∀ j e, es.get? j = some e → ∃ a',
        (getButtonsCopy h es).2.get? j = some (e.1, a') ∧ h.length ≤ a' ∧
        (getButtons h o).1.get? a' = some (Cell.arr (readArr h e.2)))) ∧
    (∀ a c b, h.length ≤ a → b < h.length →
      ((getButtons h o).1.set a c).get? b = h.get? b) := by
  have spec := getButtonsCopy_spec es h hwf
  have hunfold : getButtons h o =
      ((getButtonsCopy h es).1 ++ [Cell.obj (getButtonsCopy h es).2],
       (getButtonsCopy h es).1.length) := by
    simp only [getButtons, ho]
  have hpres : ∀ b, b < h.length →
      (getButtons h o).1.get? b = h.get? b := by
    intro b hb
    rw [hunfold]
    show ((getButtonsCopy h es).1 ++ [Cell.obj (getButtonsCopy h es).2]).get? b
      = h.get? b
    rw [List.get?_append (lt_of_lt_of_le hb spec.1)]
    exact spec.2.1 b hb
  refine ⟨?_, hpres, ⟨?_, spec.2.2.1, ?_⟩, ?_⟩
  · rw [hunfold]
    exact spec.1
  · rw [hunfold]
    exact List.get?_concat_length _ _
  · intro j e hj
    obtain ⟨a', ha1, ha2, ha3, ha4⟩ := spec.2.2.2 j e hj
    refine ⟨a', ha1, ha2, ?_⟩
    rw [hunfold]
    show ((getButtonsCopy h es).1 ++ [Cell.obj (getButtonsCopy h es).2]).get?
      a' = some (Cell.arr (readArr h e.2))
    rw [List.get?_append ha3]
    exact ha4
  · intro a c b ha hb
    have hne : a ≠ b := Nat.ne_of_gt (lt_of_lt_of_le hb ha)
    rw [List.get?_set_ne c _ hne]
    exact hpres b hb

/-- Witness for C10 at a concrete heap: one footer array at address 0
and the buttons object at address 1; the copy's address is outside the
original heap, and overwriting a copy address leaves address 0 as it
was. -/
theorem widgetButtons_getButtons_fresh_copy_witness :
    2 ≤ (getButtons
      [Cell.arr [⟨7, some "x", "", false⟩], Cell.obj [("footer", 0)]] 1).2 ∧
    ((getButtons
        [Cell.arr [⟨7, some "x", "", false⟩], Cell.obj [("footer", 0)]]
        1).1.set 2 (Cell.arr [])).get? 0
      = ([Cell.arr [⟨7, some "x", "", false⟩],
          Cell.obj [("footer", 0)]] : Heap).get? 0 := by
  have H := widgetButtons_getButtons_fresh_copy
    [Cell.arr [⟨7, some "x", "", false⟩], Cell.obj [("footer", 0)]] 1
    [("footer", 0)] rfl (by decide)
  exact ⟨H.1, H.2.2.2 2 (Cell.arr []) 0 (by decide) (by decide)⟩

end WidgetButtons

namespace ScrollView

/-- C3: a scrollview whose offset on a scrolled axis was moved out of
bounds to a negative value has that offset returned to zero by
`_snapBack` (the bounds being `[0, maxScroll]` with a nonnegative
maximum). -/
theorem scrollview_snapBack_to_zero (st : SVState) :
    (st.axisX = true → st.scrollX < 0 → 0 ≤ st.maxScrollX →
      (snapBack st).scrollX = 0) ∧
    (st.axisY = true → st.scrollY < 0 → 0 ≤ st.maxScrollY →
      (snapBack st).scrollY = 0) := by
  constructor
  · intro hax hneg hmax
    simp only [snapBack, hax, if_true]
    rw [max_eq_right (le_of_lt hneg), min_eq_left hmax]
  · intro hax hneg hmax
    simp only [snapBack, hax, if_true]
    rw [max_eq_right (le_of_lt hneg), min_eq_left hmax]

/-- Witness for C3: a horizontal scrollview at `scrollX = -100` and a
vertical one at `scrollY = -100` both snap back to offset 0. -/
theorem scrollview_snapBack_to_zero_witness :
    (snapBack ⟨-100, 0, 300, 0, false, true, false, none⟩).scrollX = 0 ∧
    (snapBack ⟨0, -100, 0, 300, false, false, true, none⟩).scrollY = 0 :=
  ⟨(scrollview_snapBack_to_zero ⟨-100, 0, 300, 0, false, true, false, none⟩).1
      rfl (by decide) (by decide),
   (scrollview_snapBack_to_zero ⟨0, -100, 0, 300, false, false, true, none⟩).2
      rfl (by decide) (by decide)⟩

/-- C4: on an enabled vertical scrollview with room to scroll, one
mousewheel event moves `scrollY` by a fixed step of 10 in the direction
of the wheel delta and the offset never goes below zero: wheel-down from
0 gives 10, wheel-up from 10 gives 0, wheel-up from 0 leaves 0. -/
theorem scrollview_mousewheel_step (st : SVState)
    (hdis : st.disabled = false) (hax : st.axisY = true)
    (hmax : 10 ≤ st.maxScrollY) :
    (st.scrollY = 0 → (mousewheel st (-1)).scrollY = 10) ∧
    (st.scrollY = 10 → (mousewheel st 1).scrollY = 0) ∧
    (st.scrollY = 0 → (mousewheel st 1).scrollY = 0) ∧
    (∀ d : ℤ, 0 ≤ (mousewheel st d).scrollY) ∧
    (∀ d : ℤ, 0 ≤ st.scrollY - d * 10 →
      st.scrollY - d * 10 ≤ st.maxScrollY →
      (mousewheel st d).scrollY = st.scrollY - d * 10) := by
  have hmax0 : (0 : ℤ) ≤ st.maxScrollY := le_trans (by norm_num) hmax
  simp only [mousewheel, hdis, hax, Bool.false_eq_true, if_false, if_true]
  refine ⟨?_, ?_, ?_, ?_, ?_⟩
  · intro h
    rw [h]
    norm_num
    exact hmax
  · intro h
    rw [h]
    norm_num
    exact hmax0
  · intro h
    rw [h]
    norm_num
    exact hmax0
  · intro d
    exact le_min (le_max_right _ _) hmax0
  · intro d h1 h2
    rw [max_eq_left h1, min_eq_left h2]

/-- Witness for C4 on a concrete vertical scrollview: wheel-down from 0
gives 10, wheel-up from 0 leaves 0, and wheel-up from 10 gives 0. -/
theorem scrollview_mousewheel_step_witness :
    (mousewheel ⟨0, 0, 0, 300, false, false, true, none⟩ (-1)).scrollY
      = 10 ∧
    (mousewheel ⟨0, 0, 0, 300, false, false, true, none⟩ 1).scrollY = 0 ∧
    (mousewheel ⟨0, 10, 0, 300, false, false, true, none⟩ 1).scrollY = 0 := by
  have h1 := scrollview_mousewheel_step ⟨0, 0, 0, 300, false, false, true, none⟩
    rfl rfl (by decide)
  have h2 := scrollview_mousewheel_step
    ⟨0, 10, 0, 300, false, false, true, none⟩ rfl rfl (by decide)
  exact ⟨h1.1 rfl, h1.2.2.1 rfl, h2.2.1 rfl⟩

/-- C5: on a disabled scrollview, `scrollTo` and programmatic offset
sets leave `scrollX`/`scrollY` (indeed the whole state) unchanged, and
`_onGestureMoveStart` and `_flick` return `false` without changing any
scroll state. -/
theorem scrollview_disabled_noop (st : SVState) (e : GestureEvent)
    (hdis : st.disabled = true) :
    (∀ x y, scrollTo st x y = st) ∧
    (∀ v, setScrollX st v = st) ∧
    (∀ v, setScrollY st v = st) ∧
    onGestureMoveStart st e = (false, st) ∧
    flick st = (false, st) := by
  refine ⟨fun x y => ?_, fun v => ?_, fun v => ?_, ?_, ?_⟩ <;>
    simp [scrollTo, setScrollX, setScrollY, onGestureMoveStart, flick, hdis]

/-- Witness for C5 on a concrete disabled scrollview: a `scrollTo`, a
programmatic set, a gesture start, and a flick all leave the state as it
was, the latter two returning `false`. -/
theorem scrollview_disabled_noop_witness :
    scrollTo ⟨0, 0, 300, 0, true, true, false, none⟩ (some 500) none
      = ⟨0, 0, 300, 0, true, true, false, none⟩ ∧
    setScrollY ⟨0, 0, 300, 0, true, true, false, none⟩ 500
      = ⟨0, 0, 300, 0, true, true, false, none⟩ ∧
    onGestureMoveStart ⟨0, 0, 300, 0, true, true, false, none⟩ ⟨0, 0⟩
      = (false, ⟨0, 0, 300, 0, true, true, false, none⟩) ∧
    flick ⟨0, 0, 300, 0, true, true, false, none⟩
      = (false, ⟨0, 0, 300, 0, true, true, false, none⟩) := by
  have h := scrollview_disabled_noop ⟨0, 0, 300, 0, true, true, false, none⟩
    ⟨0, 0⟩ rfl
  exact ⟨h.1 (some 500) none, h.2.2.1 500, h.2.2.2.1, h.2.2.2.2⟩

end ScrollView
